import Mathlib

/-!
Shallow embedding of the workflow-model subsystem of `@kesin11/gha-utils`
(files `workflow_model/src/workflow_model.ts`, `workflow_model/src/workflow_ast.ts`,
`api_client/api_client.ts`), together with proofs about the name-matching and
pairing behaviour of `WorkflowModel`, `JobModel` and `StepModel`.

JavaScript strings are modelled as Lean `String` (ASCII-safe for every operation
used here); JS `undefined`-able values are modelled as `Option`; the YAML text is
modelled at the level of its structural parse tree (`YamlNode`), since YAML
tokenisation itself is an external library capability for this repository.
-/

/-! ## JavaScript string primitives used by the source -/

/-- Model of JS `String.prototype.startsWith`: character-level prefix test. -/
def jsStartsWith (s pre : String) : Bool :=
  decide (s.data.take pre.data.length = pre.data)

/-- Does `sub` occur as a contiguous sublist of `s`? Scans every position. -/
def hasSubList (s sub : List Char) : Bool :=
  match s with
  | [] => sub.isEmpty
  | _ :: t => sub.isPrefixOf s || hasSubList t sub

/-- Model of JS `String.prototype.includes`: substring containment. -/
def jsIncludes (s sub : String) : Bool :=
  hasSubList s.data sub.data

/-- Model of JS `String.prototype.trim` (ASCII whitespace suffices here). -/
def jsTrim (s : String) : String :=
  ⟨((s.data.dropWhile Char.isWhitespace).reverse.dropWhile Char.isWhitespace).reverse⟩

/-- Model of JS `String.prototype.split` with a single-character separator:
`"a@b@c".split("@") = ["a", "b", "c"]`, `"".split("@") = [""]`. -/
def splitOnChar (c : Char) : List Char → List (List Char)
  | [] => [[]]
  | x :: xs =>
    if x = c then [] :: splitOnChar c xs
    else (x :: (splitOnChar c xs).headD []) :: (splitOnChar c xs).tail

/-- Model of JS string coercion inside a template literal: `undefined` prints
as the text `"undefined"`. -/
def jsToString : Option String → String
  | some s => s
  | none => "undefined"

/-- Model of JS `s.replace(/^(p1 |p2 |...)/, "")`: the regex alternation is
tried left to right at the start of the string, and at most one alternative
is removed. -/
def jsReplaceStart (alts : List String) (s : String) : String :=
  match alts.find? (fun p => jsStartsWith s p) with
  | some p => ⟨s.data.drop p.data.length⟩
  | none => s

/-- The run-time step-name decorations stripped by `StepModel.match`
(`workflow_model.ts` line 503), in the order they appear in the regex
`/^(Pre Run |Post Run |Pre |Run |Post )/`. -/
def runDecorations : List String :=
  ["Pre Run ", "Post Run ", "Pre ", "Run ", "Post "]

/-! ### The greedy regex `/\$\{\{.+\}\}/g` of `JobModel.match`

JS regex semantics: scanning left to right, at each occurrence of the literal
opener the engine matches `.+` greedily, i.e. up to the furthest closer
`\x7d\x7d` that leaves at least one middle character, with `.` excluding line
terminators; with the `g` flag the scan resumes after each removed match. -/

/-- Is position `p` a feasible (greedy candidate) end for `.+\x7d\x7d` in `r`:
at least one middle character, the two closer characters present, and no line
terminator among the middle characters. -/
def exprEndOk (r : List Char) (p : Nat) : Bool :=
  decide (1 ≤ p) && decide (p + 1 < r.length) &&
  decide (r.getD p ' ' = '\x7d') && decide (r.getD (p + 1) ' ' = '\x7d') &&
  (r.take p).all (fun ch => ch != '\n' && ch != '\r')

/-- Greedy choice: the largest feasible end position, if any. -/
def greedyEnd (r : List Char) : Option Nat :=
  (List.range r.length).reverse.find? (exprEndOk r)

/-- One left-to-right pass removing every greedy match of the expression
placeholder regex. Structural recursion on a fuel bound: every step consumes
at least one character, so fuel equal to the list length always suffices and
the fuel-exhausted arm is never reached from `jsStripExpr`. -/
def stripExprFuel : Nat → List Char → List Char
  | 0, cs => cs
  | _ + 1, [] => []
  | fuel + 1, c :: rest =>
    if c = '$' ∧ rest.take 2 = ['\x7b', '\x7b'] then
      match greedyEnd (rest.drop 2) with
      | some p => stripExprFuel fuel ((rest.drop 2).drop (p + 2))
      | none => c :: stripExprFuel fuel rest
    else c :: stripExprFuel fuel rest

/-- Model of `name.replace(/\$\{\{.+\}\}/g, "")` (`workflow_model.ts` line 273). -/
def jsStripExpr (s : String) : String :=
  ⟨stripExprFuel s.data.length s.data⟩

/-- The trimmed matrix display name computed by `JobModel.match`:
`jobModel.name.replace(/\$\{\{.+\}\}/g, "").trim()`. -/
def trimmedMatrixName (n : String) : String :=
  jsTrim (jsStripExpr n)

/-! ## Structural YAML document (`yaml-ast-parser` view)

A mapping entry carries its key text, its start offset in the source text, and
its value node; every node carries its own start offset. This is the shared
structural parse both the value decoding and the position-tracking AST of the
repository walk over. -/

inductive YamlNode where
  | scalar (v : String) (pos : Nat)
  | mapping (entries : List (String × Nat × YamlNode)) (pos : Nat)
  | seq (items : List YamlNode) (pos : Nat)

/-- Start offset of a node. -/
def YamlNode.pos : YamlNode → Nat
  | .scalar _ p => p
  | .mapping _ p => p
  | .seq _ p => p

/-- Value of the first entry with the given key, when the node is a mapping
(models `mappings.find((it) => it.key.value === k)?.value` and JS object
field access on the decoded value). -/
def YamlNode.lookup : YamlNode → String → Option YamlNode
  | .mapping entries _, key => (entries.find? (fun e => e.1 == key)).map (fun e => e.2.2)
  | _, _ => none

/-- String content of a scalar node. -/
def YamlNode.asString : YamlNode → Option String
  | .scalar v _ => some v
  | _ => none

/-! ## Position Index (`structured-source` library, spec section 4.1) -/

/-- Count line terminators, treating a CRLF pair as a single terminator. -/
def countLineEndings : List Char → Nat
  | [] => 0
  | '\r' :: '\n' :: rest => 1 + countLineEndings rest
  | '\r' :: rest => 1 + countLineEndings rest
  | '\n' :: rest => 1 + countLineEndings rest
  | _ :: rest => countLineEndings rest

/-- Position index over a source text: `new StructuredSource(yaml)`. -/
structure StructuredSource where
  content : String
deriving DecidableEq

/-- Model of `src.indexToPosition(offset).line`: 1-based line of an offset. -/
def StructuredSource.lineOf (src : StructuredSource) (offset : Nat) : Nat :=
  1 + countLineEndings (src.content.data.take offset)

/-! ## `api_client/api_client.ts`: file content from the GitHub API -/

/-- The fields of `FileContentResponse` read by the workflow models
(`type`, `size`, `sha`, `url`, `git_url`, `download_url` are carried by the
source type but never read by the modelled code and are omitted). -/
structure FileContentResponse where
  name : String
  path : String
  content : String
  html_url : Option String
deriving DecidableEq

/-- `FileContent`: `content` is the base64-decoded text of `raw.content`
(the decoding itself is transport-layer work outside this core). -/
structure FileContent where
  raw : FileContentResponse
  content : String
deriving DecidableEq

/-! ## Value Model (`parse(fileContent.content) as ...`, workflow_model.ts) -/

/-- `Step` value: the fields of the TS `Step` type read by the code
(the open `with`/index-signature bag is never read by the modelled
operations and is omitted). -/
structure Step where
  uses : Option String
  name : Option String
  run : Option String
deriving DecidableEq

/-- `strategy` value of a job; only the presence of `matrix` is ever
inspected (`isMatrix`), its entries are decoded as key to scalar list. -/
structure Strategy where
  matrix : Option (List (String × List String))
deriving DecidableEq

/-- `Job` value: the fields of the TS `Job` type read by the code. -/
structure Job where
  name : Option String
  runsOn : Option String
  uses : Option String
  steps : Option (List Step)
  strategy : Option Strategy
deriving DecidableEq

/-- `Workflow` value: top-level `name` and the `jobs` mapping, whose
declaration order is preserved by the YAML value parser and by JS object
key order for valid (non-numeric) job ids. -/
structure Workflow where
  name : Option String
  jobs : List (String × Job)
deriving DecidableEq

/-- Decode one step mapping into a `Step` value. -/
def parseStep (n : YamlNode) : Step :=
  { uses := (n.lookup "uses").bind YamlNode.asString
    name := (n.lookup "name").bind YamlNode.asString
    run := (n.lookup "run").bind YamlNode.asString }

/-- Decode a `matrix` node into key/value-list pairs. -/
def parseMatrix (n : YamlNode) : List (String × List String) :=
  match n with
  | .mapping es _ => es.map (fun e =>
      (e.1, match e.2.2 with
            | .seq its _ => its.filterMap YamlNode.asString
            | _ => []))
  | _ => []

/-- Decode one job mapping into a `Job` value. -/
def parseJob (n : YamlNode) : Job :=
  { name := (n.lookup "name").bind YamlNode.asString
    runsOn := (n.lookup "runs-on").bind YamlNode.asString
    uses := (n.lookup "uses").bind YamlNode.asString
    steps := match n.lookup "steps" with
             | some (.seq items _) => some (items.map parseStep)
             | _ => none
    strategy := match n.lookup "strategy" with
                | some sn => some { matrix := (sn.lookup "matrix").map parseMatrix }
                | none => none }

/-- Decode the whole document into a `Workflow` value. A document whose
`jobs` key is missing or not a mapping makes every downstream job access of
the source throw; that failure is modelled as `none` (spec section 7,
`ParseError`). -/
def parseWorkflow (doc : YamlNode) : Option Workflow :=
  match doc.lookup "jobs" with
  | some (.mapping jentries _) =>
      some { name := (doc.lookup "name").bind YamlNode.asString
             jobs := jentries.map (fun e => (e.1, parseJob e.2.2)) }
  | _ => none

/-! ## Workflow AST (`workflow_model/src/workflow_ast.ts`) -/

/-- `WorkflowAst`: the structural root node plus the shared position index. -/
structure WorkflowAst where
  ast : YamlNode
  src : StructuredSource

/-- `JobAst`: wraps one `jobs` mapping entry (its key text, start offset and
value node) plus the shared position index. -/
structure JobAst where
  key : String
  pos : Nat
  value : YamlNode
  src : StructuredSource

/-- `StepAst`: wraps one item of a `steps` sequence plus the position index. -/
structure StepAst where
  ast : YamlNode
  src : StructuredSource

/-- `WorkflowAst.jobAsts()` (workflow_ast.ts lines 47-51): locate the `jobs`
mapping and wrap each entry. The source casts unconditionally and would throw
on a document without a `jobs` mapping; that is modelled as `none`. -/
def WorkflowAst.jobAsts (wa : WorkflowAst) : Option (List JobAst) :=
  match wa.ast.lookup "jobs" with
  | some (.mapping jentries _) =>
      some (jentries.map (fun e => { key := e.1, pos := e.2.1, value := e.2.2, src := wa.src }))
  | _ => none

/-- `JobAst.stepAsts()` (workflow_ast.ts lines 95-103): `undefined` when the
job has no `steps` key (reusable-workflow call jobs). -/
def JobAst.stepAsts (ja : JobAst) : Option (List StepAst) :=
  match ja.value.lookup "steps" with
  | some (.seq items _) => some (items.map (fun it => { ast := it, src := ja.src }))
  | _ => none

/-- `JobAst.startLine()`. -/
def JobAst.startLine (ja : JobAst) : Nat :=
  ja.src.lineOf ja.pos

/-- `StepAst.startLine()`. -/
def StepAst.startLine (sa : StepAst) : Nat :=
  sa.src.lineOf sa.ast.pos

/-! ## Domain models (`workflow_model/src/workflow_model.ts`) -/

/-- The decomposed `uses` reference of a step:
`actions/checkout@v4` becomes `{ action := "actions/checkout", ref := some "v4" }`. -/
structure StepUses where
  action : String
  ref : Option String
deriving DecidableEq

/-- `StepModel` (workflow_model.ts lines 401-441). -/
structure StepModel where
  raw : Step
  name : String
  uses : Option StepUses
  ast : StepAst
  htmlUrl : Option String

/-- The `StepModel` constructor (lines 429-441). JS truthiness: an empty
`uses` string is falsy, so it yields no decomposition at all; otherwise
`obj.uses.split("@")[0]` is the segment before the first `@` and
`obj.uses.split("@")[1]` the segment between the first and second `@`
(`undefined` when there is no `@`). `name` resolves as
`obj.name ?? obj.run ?? this.uses?.action ?? ""`. -/
def StepModel.make (obj : Step) (fileContent : FileContent) (ast : StepAst) : StepModel :=
  let uses : Option StepUses :=
    match obj.uses with
    | some u =>
        if u = "" then none
        else some { action := ⟨(splitOnChar '@' u.data).headD []⟩
                    ref := ((splitOnChar '@' u.data)[1]?).map (fun l => (⟨l⟩ : String)) }
    | none => none
  { raw := obj
    uses := uses
    name := obj.name.getD (obj.run.getD ((uses.map StepUses.action).getD ""))
    ast := ast
    htmlUrl := fileContent.raw.html_url }

/-- `StepModel.startLine` getter. -/
def StepModel.startLine (m : StepModel) : Nat :=
  m.ast.startLine

/-- `StepModel.htmlUrlWithLine` getter (line 458): the JS template literal
stringifies an undefined `htmlUrl` as the text `undefined`. -/
def StepModel.htmlUrlWithLine (m : StepModel) : String :=
  jsToString m.htmlUrl ++ "#L" ++ toString m.startLine

/-- `StepModel.showable` getter (lines 468-471). -/
def StepModel.showable (m : StepModel) : String :=
  m.raw.name.getD (m.raw.uses.getD (m.raw.run.getD "Error: Not showable step"))

/-- `StepModel.isComposite()` (lines 527-537): `./` alone means run this same
repository as an action, not a composite sub-step. -/
def StepModel.isComposite (m : StepModel) : Bool :=
  if m.raw.uses = some "./" then false
  else
    match m.raw.uses with
    | some u => jsStartsWith u "./"
    | none => false

/-- The per-step predicate of the `StepModel.match` scan loop (lines 505-510):
the stripped name equals the step's resolved `name`, or the text of the
stripped name before its first `@` equals the step's `uses.action`. The
source computes the stripped name and action once before the loop; this
predicate recomputes the same values per element. -/
def stepMatches (rawName : String) (m : StepModel) : Bool :=
  decide (m.name = jsReplaceStart runDecorations rawName) ||
  decide (m.uses.map StepUses.action =
          some ⟨(splitOnChar '@' (jsReplaceStart runDecorations rawName).data).headD []⟩)

/-- `StepModel.match(stepModels, rawName)` (lines 491-513). -/
def StepModel.findMatch (stepModels : Option (List StepModel)) (rawName : String) :
    Option StepModel :=
  match stepModels with
  | none => none
  | some ms =>
    if rawName = "Set up job" ∨ rawName = "Complete job" then none
    else ms.find? (stepMatches rawName)

/-- `JobModel` (workflow_model.ts lines 169-203). -/
structure JobModel where
  id : String
  name : Option String
  fileContent : FileContent
  raw : Job
  ast : JobAst
  htmlUrl : Option String

/-- The `JobModel` constructor (lines 191-203). -/
def JobModel.make (id : String) (obj : Job) (fileContent : FileContent) (ast : JobAst) :
    JobModel :=
  { id := id
    name := obj.name
    raw := obj
    ast := ast
    fileContent := fileContent
    htmlUrl := fileContent.raw.html_url }

/-- `JobModel.startLine` getter. -/
def JobModel.startLine (j : JobModel) : Nat :=
  j.ast.startLine

/-- `JobModel.htmlUrlWithLine` getter (line 220): the JS template literal
stringifies an undefined `htmlUrl` as the text `undefined`. -/
def JobModel.htmlUrlWithLine (j : JobModel) : String :=
  jsToString j.htmlUrl ++ "#L" ++ toString j.startLine

/-- `JobModel.isMatrix()` (lines 293-296). -/
def JobModel.isMatrix (j : JobModel) : Bool :=
  match j.raw.strategy with
  | some st => st.matrix.isSome
  | none => false

/-- `JobModel.isReusable()` (lines 310-317). -/
def JobModel.isReusable (j : JobModel) : Bool :=
  match j.raw.uses with
  | some u => jsStartsWith u "./"
  | none => false

/-- `JobModel.steps` getter (lines 228-235). -/
def JobModel.steps (j : JobModel) : List StepModel :=
  match j.raw.steps, j.ast.stepAsts with
  | some ss, some sas => (ss.zip sas).map (fun p => StepModel.make p.1 j.fileContent p.2)
  | _, _ => []

/-- The per-candidate predicate of the `JobModel.match` scan loop
(lines 262-276): exact id, exact declared name, and for matrix candidates the
starts-with-id rule followed, when a name is declared, by the
contains-trimmed-name rule. -/
def jobMatches (rawName : String) (j : JobModel) : Bool :=
  if j.id = rawName then true
  else if j.name = some rawName then true
  else if j.isMatrix then
    if jsStartsWith rawName j.id then true
    else
      match j.name with
      | none => false
      | some n => jsIncludes rawName (trimmedMatrixName n)
  else false

/-- `JobModel.match(jobModels, rawName)` (lines 256-279). -/
def JobModel.findMatch (jobModels : Option (List JobModel)) (rawName : String) :
    Option JobModel :=
  match jobModels with
  | none => none
  | some js => js.find? (jobMatches rawName)

/-- `WorkflowModel` (workflow_model.ts lines 24-88). -/
structure WorkflowModel where
  fileContent : FileContent
  raw : Workflow
  ast : WorkflowAst
  htmlUrl : Option String

/-- The `WorkflowModel` constructor (lines 38-43): the value parse and the
position AST are built from the same text; the structural document `doc`
stands for that text's parse result, consumed by both views. -/
def WorkflowModel.make (fileContent : FileContent) (doc : YamlNode) : Option WorkflowModel :=
  (parseWorkflow doc).map (fun w =>
    { fileContent := fileContent
      raw := w
      ast := { ast := doc, src := { content := fileContent.content } }
      htmlUrl := fileContent.raw.html_url })

/-- `WorkflowModel.name` getter (lines 75-77): declared name, else file path. -/
def WorkflowModel.name (w : WorkflowModel) : String :=
  w.raw.name.getD w.fileContent.raw.path

/-- `WorkflowModel.jobs` getter (lines 83-88): zips the value entries with the
AST entries positionally. -/
def WorkflowModel.jobs (w : WorkflowModel) : List JobModel :=
  (w.raw.jobs.zip (w.ast.jobAsts.getD [])).map
    (fun p => JobModel.make p.1.1 p.1.2 w.fileContent p.2)

/-! ## Spec-side reference formulations

These definitions follow the words of the specification (spec.md section 4.5)
rather than the source; the claim theorems compare the source-derived
definitions above against them. -/

/-- Follows the spec's words: strip a single leading run-time decoration from
a reported step name, checking the alternatives in order. -/
def specStrippedName (rawName : String) : String :=
  if jsStartsWith rawName "Pre Run " then ⟨rawName.data.drop 8⟩
  else if jsStartsWith rawName "Post Run " then ⟨rawName.data.drop 9⟩
  else if jsStartsWith rawName "Pre " then ⟨rawName.data.drop 4⟩
  else if jsStartsWith rawName "Run " then ⟨rawName.data.drop 4⟩
  else if jsStartsWith rawName "Post " then ⟨rawName.data.drop 5⟩
  else rawName

/-- Follows the spec's words: the text of a name before its first `@`. -/
def specActionOf (n : String) : String :=
  ⟨n.data.takeWhile (fun ch => ch != '@')⟩

/-- Follows the spec's words (spec.md section 4.5, StepModel fields): decompose
a `uses` reference by splitting on the LAST `@`; `ref` is undefined when no
`@` is present. -/
def lastAtDecomp (u : String) : StepUses :=
  let parts := splitOnChar '@' u.data
  if parts.length ≤ 1 then { action := u, ref := none }
  else { action := ⟨List.intercalate ['@'] parts.dropLast⟩
         ref := some ⟨parts.getLastD []⟩ }

/-! ## Concrete fixtures used by witnesses and counterexamples -/

/-- A file content fixture carrying no `html_url`. -/
def fcEx : FileContent :=
  { raw := { name := "ci.yml", path := ".github/workflows/ci.yml", content := "",
             html_url := none }
    content := "" }

/-- A position-index fixture. -/
def srcEx : StructuredSource := ⟨""⟩

/-- A job AST entry fixture. -/
def jobAstEx : JobAst := { key := "build", pos := 0, value := .scalar "" 0, src := srcEx }

/-- A step AST fixture. -/
def stepAstEx : StepAst := { ast := .scalar "" 0, src := srcEx }

/-- A matrix job whose declared name carries an expression placeholder. -/
def jobC1 : Job :=
  { name := some "X $\x7b\x7b matrix.os \x7d\x7d", runsOn := none, uses := none,
    steps := none, strategy := some { matrix := some [("os", ["u", "v"])] } }

/-- The job model built from `jobC1` under id `build`. -/
def jmC1 : JobModel := JobModel.make "build" jobC1 fcEx jobAstEx

/-- A matrix job without a declared name. -/
def matrixJob : Job :=
  { name := none, runsOn := none, uses := none, steps := none,
    strategy := some { matrix := some [("os", ["u", "v"])] } }

/-- A plain job without matrix strategy or declared name. -/
def plainJob : Job :=
  { name := none, runsOn := none, uses := none, steps := none, strategy := none }

/-- Matrix job with id `build`, placed first in the scan list. -/
def jmA9 : JobModel := JobModel.make "build" matrixJob fcEx jobAstEx

/-- Plain job whose id is exactly the queried raw name, placed second. -/
def jmB9 : JobModel := JobModel.make "build (x)" plainJob fcEx jobAstEx

/-- A step whose `uses` reference contains two `@` characters. -/
def stepC2 : Step := { uses := some "a@b@c", name := none, run := none }

/-- The step model built from `stepC2`. -/
def smC2 : StepModel := StepModel.make stepC2 fcEx stepAstEx

/-- The checkout step of the spec's own example. -/
def stepCk : Step := { uses := some "actions/checkout@v4", name := none, run := none }

/-- The step model built from `stepCk`. -/
def smCk : StepModel := StepModel.make stepCk fcEx stepAstEx

/-- An unnamed run step (the spec's step-matching example). -/
def stepC4 : Step := { uses := none, name := none, run := some "deno fmt --check" }

/-- The step model built from `stepC4`. -/
def smC4 : StepModel := StepModel.make stepC4 fcEx stepAstEx

/-- The `jobs` mapping entries of the pairing-invariant fixture document. -/
def esW : List (String × Nat × YamlNode) :=
  [("check", 30, .mapping [("runs-on", 40, .scalar "ubuntu-latest" 49)] 40),
   ("my_repo_test", 70, .mapping [("runs-on", 90, .scalar "ubuntu-latest" 99)] 90)]

/-- A two-job workflow document. -/
def docW : YamlNode :=
  .mapping [("name", 0, .scalar "CI" 6), ("jobs", 10, .mapping esW 30)] 0

/-- File content fixture for the pairing-invariant witness. -/
def fcW : FileContent :=
  { raw := { name := "ci.yml", path := ".github/workflows/ci.yml", content := "",
             html_url := none }
    content := "name: CI" }

/-- The workflow model that `WorkflowModel.make fcW docW` produces. -/
def wmW : WorkflowModel :=
  { fileContent := fcW
    raw := { name := some "CI", jobs := esW.map (fun e => (e.1, parseJob e.2.2)) }
    ast := { ast := docW, src := { content := fcW.content } }
    htmlUrl := none }

/-- A one-job workflow document without a top-level `name` key. -/
def docN : YamlNode :=
  .mapping [("jobs", 6, .mapping [("check", 12, .mapping [] 20)] 12)] 0

/-- The workflow model that `WorkflowModel.make fcEx docN` produces. -/
def wmN : WorkflowModel :=
  { fileContent := fcEx
    raw := { name := none, jobs := [("check", parseJob (.mapping [] 20))] }
    ast := { ast := docN, src := { content := fcEx.content } }
    htmlUrl := none }

/-- A job model without an `html_url`. -/
def jm10 : JobModel := JobModel.make "deploy" plainJob fcEx jobAstEx

/-- A step model without an `html_url`. -/
def sm10 : StepModel :=
  StepModel.make { uses := none, name := none, run := some "echo hi" } fcEx stepAstEx

/-! ## Helper lemmas -/

/-- Every string is a JS prefix of itself. -/
theorem jsStartsWith_self (s : String) : jsStartsWith s s = true := by
  simp [jsStartsWith, List.take_length]

/-- A JS split never produces an empty list of segments. -/
theorem splitOnChar_ne_nil (c : Char) (cs : List Char) : splitOnChar c cs ≠ [] := by
  cases cs with
  | nil => simp [splitOnChar]
  | cons x xs => by_cases h : x = c <;> simp [splitOnChar, h]

/-- The first segment of a JS split is the run of characters before the first
separator. -/
theorem splitOnChar_headD (c : Char) (cs : List Char) :
    (splitOnChar c cs).headD [] = cs.takeWhile (fun ch => ch != c) := by
  induction cs with
  | nil => rfl
  | cons x xs ih =>
    by_cases h : x = c
    · subst h
      simp [splitOnChar, List.takeWhile_cons]
    · unfold splitOnChar
      rw [if_neg h, List.headD_cons, ih]
      simp [List.takeWhile_cons, h]

/-- The second segment of a JS split is the run between the first and second
separators, and is absent when the separator does not occur. -/
theorem splitOnChar_one (c : Char) (cs : List Char) :
    (splitOnChar c cs)[1]? =
      if c ∈ cs then
        some ((cs.dropWhile (fun ch => ch != c)).tail.takeWhile (fun ch => ch != c))
      else none := by
  induction cs with
  | nil => simp [splitOnChar]
  | cons x xs ih =>
    by_cases h : x = c
    · subst h
      have hne := splitOnChar_ne_nil x xs
      rcases hr : splitOnChar x xs with _ | ⟨hd, tl⟩
      · exact absurd hr hne
      · have hh : hd = xs.takeWhile (fun ch => ch != x) := by
          have := splitOnChar_headD x xs
          rw [hr] at this
          simpa using this
        simp [splitOnChar, hr, hh, List.dropWhile_cons]
    · have h' : ¬c = x := fun hc => h hc.symm
      simp [splitOnChar, h, h', List.dropWhile_cons, ih]

/-- The source's decoration-stripping replace agrees with the spec's ordered
five-way case split. -/
theorem jsReplaceStart_runDecorations (s : String) :
    jsReplaceStart runDecorations s = specStrippedName s := by
  unfold jsReplaceStart runDecorations specStrippedName
  by_cases h1 : jsStartsWith s "Pre Run " = true
  · simp [List.find?, h1]
  · rw [Bool.not_eq_true] at h1
    by_cases h2 : jsStartsWith s "Post Run " = true
    · simp [List.find?, h1, h2]
    · rw [Bool.not_eq_true] at h2
      by_cases h3 : jsStartsWith s "Pre " = true
      · simp [List.find?, h1, h2, h3]
      · rw [Bool.not_eq_true] at h3
        by_cases h4 : jsStartsWith s "Run " = true
        · simp [List.find?, h1, h2, h3, h4]
        · rw [Bool.not_eq_true] at h4
          by_cases h5 : jsStartsWith s "Post " = true
          · simp [List.find?, h1, h2, h3, h4, h5]
          · rw [Bool.not_eq_true] at h5
            simp [List.find?, h1, h2, h3, h4, h5]

/-! ## Claim theorems -/

/-- Claim C5: `StepModel.match` returns absent for the synthetic pseudo-step
names `Set up job` and `Complete job`, for every list of step models (and for
an undefined list), regardless of the steps' contents. -/
theorem pseudo_step_rejection (stepModels : Option (List StepModel)) :
    StepModel.findMatch stepModels "Set up job" = none ∧
    StepModel.findMatch stepModels "Complete job" = none := by
  cases stepModels with
  | none => exact ⟨rfl, rfl⟩
  | some ms => exact ⟨rfl, rfl⟩

/-- Claim C6: `isComposite()` is true exactly when the raw `uses` string is
present, starts with `./`, and is not exactly `./`; an absent `uses` or a
remote reference yields false. -/
theorem isComposite_spec (m : StepModel) :
    m.isComposite = true ↔
      ∃ u, m.raw.uses = some u ∧ jsStartsWith u "./" = true ∧ u ≠ "./" := by
  unfold StepModel.isComposite
  by_cases h : m.raw.uses = some "./"
  · rw [if_pos h]
    simp only [Bool.false_eq_true, false_iff]
    rintro ⟨u, hu, _, hne⟩
    rw [h] at hu
    exact hne (Option.some.injEq _ _ ▸ hu.symm)
  · rw [if_neg h]
    rcases hu : m.raw.uses with _ | u
    · simp
    · have hne : u ≠ "./" := fun he => h (by rw [hu, he])
      simp [hne]

/-- Claim C9: the scan of `JobModel.match` applies every rule to one candidate
before moving to the next: a matrix job placed earlier whose id is a strict
prefix of the raw name wins over a later candidate whose id equals the raw
name exactly. -/
theorem per_candidate_rule_priority :
    JobModel.findMatch (some [jmA9, jmB9]) "build (x)" = some jmA9 ∧
    jmA9.isMatrix = true ∧ jmA9.id = "build" ∧ jmB9.id = "build (x)" ∧
    jsStartsWith "build (x)" jmA9.id = true ∧ jmA9.id ≠ "build (x)" := by
  refine ⟨rfl, rfl, rfl, rfl, rfl, ?_⟩
  decide

/-- Claim C10: the `htmlUrlWithLine` getters of `JobModel` and `StepModel`
always produce `htmlUrl + "#L" + startLine`; with no `html_url` on the file
they do not fail but produce a string starting with the text `undefined#L`. -/
theorem htmlUrlWithLine_total (j : JobModel) (s : StepModel) :
    (j.htmlUrl = none → ∃ rest, j.htmlUrlWithLine = "undefined#L" ++ rest) ∧
    (∀ u, j.htmlUrl = some u → j.htmlUrlWithLine = u ++ "#L" ++ toString j.startLine) ∧
    (s.htmlUrl = none → ∃ rest, s.htmlUrlWithLine = "undefined#L" ++ rest) ∧
    (∀ u, s.htmlUrl = some u → s.htmlUrlWithLine = u ++ "#L" ++ toString s.startLine) := by
  refine ⟨?_, ?_, ?_, ?_⟩
  · intro h
    exact ⟨toString j.startLine, by unfold JobModel.htmlUrlWithLine; rw [h]; rfl⟩
  · intro u h
    unfold JobModel.htmlUrlWithLine
    rw [h]
    rfl
  · intro h
    exact ⟨toString s.startLine, by unfold StepModel.htmlUrlWithLine; rw [h]; rfl⟩
  · intro u h
    unfold StepModel.htmlUrlWithLine
    rw [h]
    rfl

/-- Witness for claim C10 at concrete models carrying no `html_url`. -/
theorem htmlUrlWithLine_total_witness :
    jm10.htmlUrl = none ∧ sm10.htmlUrl = none ∧
    (∃ rest, jm10.htmlUrlWithLine = "undefined#L" ++ rest) ∧
    (∃ rest, sm10.htmlUrlWithLine = "undefined#L" ++ rest) :=
  ⟨rfl, rfl, (htmlUrlWithLine_total jm10 sm10).1 rfl,
    (htmlUrlWithLine_total jm10 sm10).2.2.1 rfl⟩

/-- Claim C8: `WorkflowModel.name` is the declared top-level name when present
and otherwise the file's path. -/
theorem workflow_name_default (w : WorkflowModel) :
    (w.raw.name = none → w.name = w.fileContent.raw.path) ∧
    (∀ n, w.raw.name = some n → w.name = n) := by
  constructor
  · intro h
    unfold WorkflowModel.name
    rw [h]
    rfl
  · intro n h
    unfold WorkflowModel.name
    rw [h]
    rfl

/-- Witness for claim C8 at a workflow whose YAML declares no name. -/
theorem workflow_name_default_witness :
    WorkflowModel.make fcEx docN = some wmN ∧ wmN.raw.name = none ∧
    wmN.name = wmN.fileContent.raw.path :=
  ⟨rfl, rfl, (workflow_name_default wmN).1 rfl⟩

/-- Claim C7: both matchers are total functions into an option type: for every
input they return either a model from the list that satisfies the scan
predicate, or the explicit absent value; absence of the result is exactly
absence of any matching element. -/
theorem match_totality (jobs : List JobModel) (steps : List StepModel) (rn : String) :
    JobModel.findMatch none rn = none ∧
    StepModel.findMatch none rn = none ∧
    (JobModel.findMatch (some jobs) rn = none ∨
      ∃ j, JobModel.findMatch (some jobs) rn = some j ∧ j ∈ jobs ∧ jobMatches rn j = true) ∧
    (StepModel.findMatch (some steps) rn = none ∨
      ∃ s, StepModel.findMatch (some steps) rn = some s ∧ s ∈ steps ∧ stepMatches rn s = true) ∧
    (JobModel.findMatch (some jobs) rn = none ↔ jobs.filter (jobMatches rn) = []) := by
  refine ⟨rfl, rfl, ?_, ?_, ?_⟩
  · rcases hf : jobs.find? (jobMatches rn) with _ | j
    · exact Or.inl hf
    · exact Or.inr ⟨j, hf, List.mem_of_find?_eq_some hf, List.find?_some hf⟩
  · unfold StepModel.findMatch
    dsimp only
    by_cases hps : rn = "Set up job" ∨ rn = "Complete job"
    · rw [if_pos hps]
      exact Or.inl rfl
    · rw [if_neg hps]
      rcases hf : steps.find? (stepMatches rn) with _ | s
      · exact Or.inl rfl
      · exact Or.inr ⟨s, rfl, List.mem_of_find?_eq_some hf, List.find?_some hf⟩
  · show jobs.find? (jobMatches rn) = none ↔ _
    rw [List.find?_eq_none, List.filter_eq_nil_iff]

/-- Claim C4: for a non-pseudo raw name, `StepModel.match` strips at most one
leading decoration (checked in the spec's order), and returns the first step
model whose resolved name equals the stripped name or whose `uses.action`
equals the stripped name's text before its first `@` — absent when no step
model satisfies either condition. -/
theorem step_match_first_at (ms : List StepModel) (rawName : String)
    (h1 : rawName ≠ "Set up job") (h2 : rawName ≠ "Complete job") :
    StepModel.findMatch (some ms) rawName =
      ms.find? (fun m =>
        decide (m.name = specStrippedName rawName) ||
        decide (m.uses.map StepUses.action =
                some (specActionOf (specStrippedName rawName)))) ∧
    (StepModel.findMatch (some ms) rawName = none ↔
      ms.filter (fun m =>
        decide (m.name = specStrippedName rawName) ||
        decide (m.uses.map StepUses.action =
                some (specActionOf (specStrippedName rawName)))) = []) := by
  have hpred : stepMatches rawName = fun m =>
      decide (m.name = specStrippedName rawName) ||
      decide (m.uses.map StepUses.action =
              some (specActionOf (specStrippedName rawName))) := by
    funext m
    unfold stepMatches
    rw [jsReplaceStart_runDecorations]
    have ha : (⟨(splitOnChar '@' (specStrippedName rawName).data).headD []⟩ : String) =
        specActionOf (specStrippedName rawName) :=
      congrArg String.mk (splitOnChar_headD '@' (specStrippedName rawName).data)
    rw [ha]
  have hmain : StepModel.findMatch (some ms) rawName = ms.find? (stepMatches rawName) := by
    unfold StepModel.findMatch
    dsimp only
    rw [if_neg (fun hc => Or.elim hc h1 h2)]
  constructor
  · rw [hmain, hpred]
  · rw [hmain, hpred, List.find?_eq_none, List.filter_eq_nil_iff]

/-- Witness for claim C4 at the spec's own example: an unnamed run step found
from the decorated reported name. -/
theorem step_match_first_at_witness :
    ("Run deno fmt --check" ≠ "Set up job") ∧
    ("Run deno fmt --check" ≠ "Complete job") ∧
    (StepModel.findMatch (some [smC4]) "Run deno fmt --check" =
      [smC4].find? (fun m =>
        decide (m.name = specStrippedName "Run deno fmt --check") ||
        decide (m.uses.map StepUses.action =
                some (specActionOf (specStrippedName "Run deno fmt --check"))))) ∧
    StepModel.findMatch (some [smC4]) "Run deno fmt --check" = some smC4 := by
  refine ⟨by decide, by decide, ?_, ?_⟩
  · exact (step_match_first_at [smC4] "Run deno fmt --check" (by decide) (by decide)).1
  · rfl

/-- Counterexample for claim C2: with `uses: "a@b@c"` the constructor yields
`{ action := "a", ref := some "b" }` (first-`@` split), while splitting at the
last `@` as the claim states would yield `{ action := "a@b", ref := some "c" }`. -/
theorem uses_last_split_cex :
    smC2.raw.uses = some "a@b@c" ∧
    smC2.uses = some { action := "a", ref := some "b" } ∧
    lastAtDecomp "a@b@c" = { action := "a@b", ref := some "c" } ∧
    ({ action := "a", ref := some "b" } : StepUses) ≠
      { action := "a@b", ref := some "c" } := by
  refine ⟨rfl, rfl, rfl, ?_⟩
  decide

/-- Claim C2 amended: for a non-empty `uses` string, the constructor splits at
the FIRST `@`: `action` is the text before the first `@`, and `ref` is the
text after the first `@` up to the next `@` or the end (absent when no `@`
occurs). -/
theorem uses_first_split_amended (obj : Step) (fc : FileContent) (ast : StepAst)
    (u : String) (hu : obj.uses = some u) (hne : u ≠ "") :
    (StepModel.make obj fc ast).uses =
      some { action := ⟨u.data.takeWhile (fun ch => ch != '@')⟩
             ref := if '@' ∈ u.data
                    then some ⟨((u.data.dropWhile (fun ch => ch != '@')).tail.takeWhile
                                 (fun ch => ch != '@'))⟩
                    else none } := by
  unfold StepModel.make
  dsimp only
  rw [hu]
  dsimp only
  rw [if_neg hne]
  congr 1
  congr 1
  · exact congrArg String.mk (splitOnChar_headD '@' u.data)
  · rw [splitOnChar_one]
    by_cases h : '@' ∈ u.data
    · rw [if_pos h, if_pos h]
      rfl
    · rw [if_neg h, if_neg h]
      rfl

/-- Witness for the amended claim C2 at the spec's checkout example. -/
theorem uses_first_split_amended_witness :
    stepCk.uses = some "actions/checkout@v4" ∧ ("actions/checkout@v4" : String) ≠ "" ∧
    smCk.uses = some { action := "actions/checkout", ref := some "v4" } := by
  refine ⟨rfl, by decide, ?_⟩
  have h := uses_first_split_amended stepCk fcEx stepAstEx "actions/checkout@v4" rfl
    (by decide)
  exact h.trans (by rfl)

/-- Counterexample for claim C1: a matrix job WITH a declared name is matched
because the raw name starts with its id, even though the raw name does not
contain the trimmed declared name — so, contrary to the claim, the
starts-with-id rule is not restricted to the name-undefined case, and
"matches exactly when rawName contains the trimmed name" fails. -/
theorem matrix_name_defined_cex :
    jmC1.isMatrix = true ∧
    jmC1.name = some "X $\x7b\x7b matrix.os \x7d\x7d" ∧
    JobModel.findMatch (some [jmC1]) "build (ubuntu)" = some jmC1 ∧
    jsIncludes "build (ubuntu)"
      (trimmedMatrixName "X $\x7b\x7b matrix.os \x7d\x7d") = false := by
  refine ⟨rfl, rfl, ?_, ?_⟩
  · rfl
  · rfl

/-- Claim C1 amended: for a matrix candidate, when `name` is undefined the
candidate matches exactly when the raw name starts with its id; when `name`
is defined the candidate matches exactly when the raw name starts with its
id, or equals the declared name, or contains the declared name with the
greedy `$\x7b\x7b ... \x7d\x7d` match stripped and trimmed — the
starts-with-id rule applies to every matrix candidate, not only the
name-undefined case. -/
theorem matrix_match_amended (j : JobModel) (rn : String) (hm : j.isMatrix = true) :
    jobMatches rn j = true ↔
      (jsStartsWith rn j.id = true ∨
        match j.name with
        | none => False
        | some n => rn = n ∨ jsIncludes rn (trimmedMatrixName n) = true) := by
  unfold jobMatches
  by_cases h1 : j.id = rn
  · have hsw : jsStartsWith rn j.id = true := by rw [h1]; exact jsStartsWith_self rn
    rw [if_pos h1]
    exact iff_of_true rfl (Or.inl hsw)
  · rw [if_neg h1]
    by_cases h2 : j.name = some rn
    · rw [if_pos h2, h2]
      simp
    · rw [if_neg h2, hm]
      by_cases h3 : jsStartsWith rn j.id = true
      · simp [h3]
      · rw [Bool.not_eq_true] at h3
        rcases hn : j.name with _ | n
        · simp [h3, hn]
        · have hne : rn ≠ n := fun he => h2 (by rw [hn, he])
          simp [h3, hn, hne]

/-- Witness for the amended claim C1 at the fixture matrix job with a declared
name carrying an expression placeholder. -/
theorem matrix_match_amended_witness :
    jmC1.isMatrix = true ∧
    (jobMatches "build (ubuntu)" jmC1 = true ↔
      (jsStartsWith "build (ubuntu)" jmC1.id = true ∨
        match jmC1.name with
        | none => False
        | some n => "build (ubuntu)" = n ∨
            jsIncludes "build (ubuntu)" (trimmedMatrixName n) = true)) :=
  ⟨rfl, matrix_match_amended jmC1 "build (ubuntu)" rfl⟩

/-- Claim C3: for a valid workflow document whose `jobs` mapping has the
entries `es` (with distinct job ids, as YAML requires), the constructed
model's `jobs` list has exactly `es.length` elements and the i-th job model's
`id` is the i-th key of the `jobs` mapping in declaration order — the value
entry and the AST entry paired at each index describe the same job. -/
theorem jobs_pairing (fc : FileContent) (doc : YamlNode)
    (es : List (String × Nat × YamlNode)) (mpos : Nat) (wm : WorkflowModel)
    (hjobs : doc.lookup "jobs" = some (.mapping es mpos))
    (_hnodup : (es.map (fun e => e.1)).Nodup)
    (hmk : WorkflowModel.make fc doc = some wm) :
    wm.jobs.length = es.length ∧
    wm.jobs.map JobModel.id = es.map (fun e => e.1) := by
  have hpw : parseWorkflow doc =
      some { name := (doc.lookup "name").bind YamlNode.asString
             jobs := es.map (fun e => (e.1, parseJob e.2.2)) } := by
    unfold parseWorkflow
    rw [hjobs]
  unfold WorkflowModel.make at hmk
  rw [hpw] at hmk
  simp only [Option.map_some'] at hmk
  injection hmk with hwm
  subst hwm
  have hja : (({ ast := doc, src := { content := fc.content } } : WorkflowAst)).jobAsts =
      some (es.map (fun e =>
        ({ key := e.1, pos := e.2.1, value := e.2.2,
           src := { content := fc.content } } : JobAst))) := by
    unfold WorkflowAst.jobAsts
    dsimp only
    rw [hjobs]
  constructor
  · unfold WorkflowModel.jobs
    dsimp only
    rw [hja]
    simp [List.length_zip]
  · unfold WorkflowModel.jobs
    dsimp only
    rw [hja]
    simp only [Option.getD_some]
    rw [List.zip_map']
    simp [List.map_map, JobModel.make, Function.comp]

/-- Witness for claim C3 at a two-job document. -/
theorem jobs_pairing_witness :
    docW.lookup "jobs" = some (.mapping esW 30) ∧
    (esW.map (fun e => e.1)).Nodup ∧
    WorkflowModel.make fcW docW = some wmW ∧
    wmW.jobs.length = esW.length ∧
    wmW.jobs.map JobModel.id = esW.map (fun e => e.1) := by
  refine ⟨rfl, by decide, rfl, ?_, ?_⟩
  · exact (jobs_pairing fcW docW esW 30 wmW rfl (by decide) rfl).1
  · exact (jobs_pairing fcW docW esW 30 wmW rfl (by decide) rfl).2
